import Mathlib

/-!
Verification of the jira-test matcher, pattern builder, escaper and result
reconciler, embedded shallowly from the TypeScript source.

Strings are modelled as lists of characters (`Str`).  The ECMAScript regular
expression engine consumed by `isValidRegex` / `RegExp.test` is external to the
repository; it is modelled here on the exact syntactic fragment the pattern
builder emits (literal characters, backslash escapes, `$` and `^` anchors,
`.`, groups and alternation).  Quantifiers and character classes, which the
generated patterns never contain unescaped, are conservatively rejected by the
model parser.
-/

/-- Strings as lists of characters (the JS string model used throughout). -/
abbrev Str := List Char

/-- The characters escaped by `escapeRegex` in `src/matcher/regex.ts`:
the character class `[.*+?^$\x7b\x7d()|[\]\\]`. -/
def specialChars : List Char :=
  ['.', '*', '+', '?', '^', '$', '\x7b', '\x7d', '(', ')', '|', '[', ']', '\\']

/-- Embedding of `escapeRegex` (src/matcher/regex.ts): replace every special
regex character `c` by `\c`, leaving all other characters unchanged. -/
def escapeRegex (s : Str) : Str :=
  s.flatMap (fun c => if c ∈ specialChars then ['\\', c] else [c])

/-- Embedding of `createExactMatchPattern` (src/matcher/regex.ts):
escaped title followed by the end anchor `$` only. -/
def createExactMatchPattern (title : Str) : Str :=
  escapeRegex title ++ ['$']

/-- Embedding of `createCombinedPattern` (src/matcher/regex.ts): empty string
for no titles, the exact-match pattern for one title, otherwise each title's
exact-match pattern parenthesized and joined with `|`. -/
def createCombinedPattern (titles : List Str) : Str :=
  match titles with
  | [] => []
  | [t] => createExactMatchPattern t
  | _ =>
    List.intercalate ['|'] (titles.map (fun t => '(' :: (createExactMatchPattern t ++ [')'])))

/-- Abstract syntax of the regular-expression fragment the pattern builder
emits (model of the ECMAScript engine's syntax on that fragment). -/
inductive Regex where
  | eps
  | char (c : Char)
  | anyChar
  | seq (r1 r2 : Regex)
  | alt (r1 r2 : Regex)
  | dollar
  | caret
deriving DecidableEq, Repr

/-- ECMAScript line terminators (not matched by `.`). -/
def lineTerminators : List Char :=
  ['\n', '\r', Char.ofNat 0x2028, Char.ofNat 0x2029]

/-- Matching semantics: the set of positions at which a match of `r` that
started at position `i` in `s` can end.  `$` matches only at the end of the
input and `^` only at the start (no multiline flag is ever passed). -/
def ends (r : Regex) (s : Str) (i : Nat) : List Nat :=
  match r with
  | .eps => [i]
  | .char c =>
    match s[i]? with
    | some c2 => if c2 = c then [i + 1] else []
    | none => []
  | .anyChar =>
    match s[i]? with
    | some c2 => if c2 ∈ lineTerminators then [] else [i + 1]
    | none => []
  | .seq r1 r2 => (ends r1 s i).flatMap (fun j => ends r2 s j)
  | .alt r1 r2 => ends r1 s i ++ ends r2 s i
  | .dollar => if i = s.length then [i] else []
  | .caret => if i = 0 then [i] else []

/-- Model of `RegExp.prototype.test`: an unanchored search that tries every
start position of the haystack. -/
def regexTest (r : Regex) (s : Str) : Bool :=
  (List.range (s.length + 1)).any (fun i => !(ends r s i).isEmpty)

/-- Concatenation of a list of regexes, in order. -/
def mkConcat (rs : List Regex) : Regex :=
  rs.foldr Regex.seq Regex.eps

/-- Alternation of the given regexes followed by a final one, in order. -/
def mkAltsList : List Regex → Regex → Regex
  | [], r => r
  | a :: as, r => .alt a (mkAltsList as r)

/-- Characters of the ECMAScript syntax outside the modelled fragment
(quantifiers, character classes, braces); the model parser rejects them. -/
def unsupportedRegexChars : List Char :=
  ['*', '+', '?', '[', ']', '\x7b', '\x7d']

/-- Recursive-descent parser for the modelled regular-expression fragment.
`stack` holds the saved (alternatives, current-concatenation) contexts of the
open groups; `altAcc` and `seqAcc` are the current contexts, most recent
first. -/
def parseLoop (cs : Str) (stack : List (List Regex × List Regex))
    (altAcc seqAcc : List Regex) : Option Regex :=
  match cs with
  | [] =>
    match stack with
    | [] => some (mkAltsList altAcc.reverse (mkConcat seqAcc.reverse))
    | _ :: _ => none
  | c :: rest =>
    if c = '\\' then
      match rest with
      | [] => none
      | c2 :: rest2 => parseLoop rest2 stack altAcc (.char c2 :: seqAcc)
    else if c = '(' then
      parseLoop rest ((altAcc, seqAcc) :: stack) [] []
    else if c = ')' then
      match stack with
      | [] => none
      | (sa, ss) :: stack2 =>
        parseLoop rest stack2 sa
          (mkAltsList altAcc.reverse (mkConcat seqAcc.reverse) :: ss)
    else if c = '|' then
      parseLoop rest stack (mkConcat seqAcc.reverse :: altAcc) []
    else if c = '$' then
      parseLoop rest stack altAcc (.dollar :: seqAcc)
    else if c = '^' then
      parseLoop rest stack altAcc (.caret :: seqAcc)
    else if c = '.' then
      parseLoop rest stack altAcc (.anyChar :: seqAcc)
    else if c ∈ unsupportedRegexChars then
      none
    else
      parseLoop rest stack altAcc (.char c :: seqAcc)
termination_by structural cs

/-- Model of `new RegExp(pattern)`: parse the pattern, `none` meaning the
constructor throws. -/
def parseRegex (cs : Str) : Option Regex :=
  parseLoop cs [] [] []

/-- Embedding of `isValidRegex` (src/matcher/regex.ts): `new RegExp(pattern)`
succeeds. -/
def isValidRegex (pattern : Str) : Bool :=
  (parseRegex pattern).isSome

/-- Embedding of `testPattern` (src/matcher/regex.ts): compile the pattern and
test the string, `false` when the pattern does not compile. -/
def testPattern (pattern s : Str) : Bool :=
  match parseRegex pattern with
  | none => false
  | some r => regexTest r s

/-- The regex denoting the literal string `s`, character by character. -/
def literalRegex (s : Str) : Regex :=
  mkConcat (s.map Regex.char)

/-- Origin of a collected test case (`'subtask' | 'linked'` in
src/collector.ts). -/
inductive TestSource where
  | subtask
  | linked
deriving DecidableEq, Repr

/-- Embedding of the collector's `TestCase` record (src/collector.ts):
Jira issue key, summary (the test title used for matching), labels, origin
and, for linked issues, the link type. -/
structure TestCase where
  jiraKey : Str
  summary : Str
  labels : List Str
  source : TestSource
  linkType : Option Str := none
deriving DecidableEq, Repr

/-- Embedding of `MatcherOptions` (src/matcher/index.ts).  The TypeScript
`mode` field is typed `'title' | 'ticket-key'`, but the runtime checks compare
plain strings, so the mode is modelled as a string. -/
structure MatcherOptions where
  mode : Str
  jiraKey : Option Str := none
deriving DecidableEq, Repr

/-- Embedding of `MatchResult` (src/matcher/index.ts). -/
structure MatchResult where
  pattern : Str
  testCases : List TestCase
  warnings : List Str
deriving DecidableEq, Repr

/-- Errors thrown by `createTestPattern` (src/matcher/index.ts); the source
throws `Error` values whose messages distinguish the three cases. -/
inductive MatcherError where
  | jiraKeyRequired
  | unsupportedMode (mode : Str)
  | invalidGeneratedPattern
deriving DecidableEq, Repr

/-- Helper for the embedding of `[...new Set(titles)]`: keep each element's
first occurrence, skipping elements already seen. -/
def setDedupAux : List Str → List Str → List Str
  | [], _ => []
  | a :: l, seen => if a ∈ seen then setDedupAux l seen else a :: setDedupAux l (a :: seen)

/-- Embedding of `[...new Set(titles)]` (src/matcher/index.ts): deduplication
preserving JS `Set` insertion order, i.e. first-occurrence order. -/
def setDedup (l : List Str) : List Str :=
  setDedupAux l []

/-- The duplicate-title warning string pushed by `createTestPattern`
(src/matcher/index.ts). -/
def dupWarning (title : Str) (count : Nat) : Str :=
  "Duplicate test title \"".data ++ title ++ "\" found in ".data
    ++ (Nat.repr count).data ++ " Jira test cases. All matches will be run.".data

/-- Embedding of the duplicate-detection loop of `createTestPattern`: the JS
`Map` iterates its entries in insertion order, which is the first-occurrence
order of the titles; one warning is pushed per title with count above one. -/
def duplicateWarnings (titles : List Str) : List Str :=
  (setDedup titles).filterMap (fun t =>
    if 1 < titles.count t then some (dupWarning t (titles.count t)) else none)

/-- Embedding of `createTestPattern` (src/matcher/index.ts).  The branches
appear in source order: the `ticket-key` branch first (where `!options.jiraKey`
is JS falsiness, true for both an absent and an empty key), then the
empty-input short-circuit, then the mode check, then pattern construction from
the deduplicated titles with the defensive regex-validity check. -/
def createTestPattern (testCases : List TestCase) (options : MatcherOptions) :
    Except MatcherError MatchResult :=
  if options.mode = "ticket-key".data then
    if options.jiraKey.getD [] = ([] : Str) then
      .error .jiraKeyRequired
    else
      .ok ⟨options.jiraKey.getD [], testCases, []⟩
  else if testCases.length = 0 then
    .ok ⟨[], [], []⟩
  else if options.mode ≠ "title".data then
    .error (.unsupportedMode options.mode)
  else
    let titles := testCases.map (·.summary)
    let uniqueTitles := setDedup titles
    let warnings :=
      if uniqueTitles.length < titles.length then duplicateWarnings titles else []
    let pattern := createCombinedPattern uniqueTitles
    if isValidRegex pattern then
      .ok ⟨pattern, testCases, warnings⟩
    else
      .error .invalidGeneratedPattern

/-- Embedding of a Jest `TestResult` record (src/runner/jest.ts).  The
TypeScript interface narrows `status` to `'passed' | 'failed'`, but the value
is parsed from Jest's JSON output at runtime and the reconciler compares it
against the string `"passed"`, so it is modelled as a string. -/
structure TestResult where
  title : Str
  status : Str
  failureMessage : Option Str := none
  duration : Option Nat := none
deriving DecidableEq, Repr

/-- Embedding of the `summary` field of `JestRunResult`. -/
structure JestSummary where
  total : Nat
  passed : Nat
  failed : Nat
deriving DecidableEq, Repr

/-- Embedding of `JestRunResult` (src/runner/jest.ts).  The optional
`coverage` field carries floating-point percentages, is never consulted by the
reconciler and is not modelled. -/
structure JestRunResult where
  success : Bool
  exitCode : Int
  testResults : List TestResult
  testFilePaths : List Str
  summary : JestSummary
  rawOutput : Str := []
  error : Option Str := none
deriving DecidableEq, Repr

/-- Embedding of `TestLocation` (src/locator.ts); the source field named
`match` is rendered `matchText` because `match` is a Lean keyword. -/
structure TestLocation where
  file : Str
  line : Nat
  column : Option Nat := none
  matchText : Str
deriving DecidableEq, Repr

/-- Embedding of `LocatorResult` (src/locator.ts). -/
structure LocatorResult where
  title : Str
  locations : List TestLocation
  error : Option Str := none
deriving DecidableEq, Repr

/-- Outcome of a test case (src/reporter/terminal.ts `TestCaseStatus`). -/
inductive TestCaseStatus where
  | PASS
  | FAIL
  | NOT_FOUND
  | ERROR
deriving DecidableEq, Repr

/-- Embedding of `TestCaseResult` (src/reporter/terminal.ts). -/
structure TestCaseResult where
  testCase : TestCase
  status : TestCaseStatus
  jestResult : Option TestResult := none
  locations : Option LocatorResult := none
  error : Option Str := none
deriving DecidableEq, Repr

/-- Embedding of `mapResultsToTestCases` (src/commands/run.ts): for every test
case, in input order, find the first Jest result with exactly the case's
summary as its title; no match is NOT_FOUND, a match with status `"passed"` is
PASS, and any other matched status is FAIL.  The optional location map is the
JS `Map` passed as `locationResults`, modelled as an association list. -/
def mapResultsToTestCases (testCases : List TestCase) (jestResult : JestRunResult)
    (locationResults : Option (List (Str × LocatorResult)) := none) :
    List TestCaseResult :=
  testCases.map (fun testCase =>
    let matchingResult := jestResult.testResults.find? (fun r => r.title = testCase.summary)
    let status : TestCaseStatus :=
      match matchingResult with
      | none => .NOT_FOUND
      | some m => if m.status = "passed".data then .PASS else .FAIL
    { testCase := testCase
      status := status
      jestResult := matchingResult
      locations := locationResults.bind (fun mp => mp.lookup testCase.summary)
      error := none })

/-- Default values used only to state index-based theorems with `List.getD`. -/
def defaultTestCase : TestCase := ⟨[], [], [], .subtask, none⟩

/-- Default Jest result record for `List.getD` statements. -/
def defaultTestResult : TestResult := ⟨[], [], none, none⟩

/-- Default reconciler output record for `List.getD` statements. -/
def defaultTestCaseResult : TestCaseResult := ⟨defaultTestCase, .NOT_FOUND, none, none, none⟩

instance {ε α : Type} [DecidableEq ε] [DecidableEq α] : DecidableEq (Except ε α) := fun a b =>
  match a, b with
  | .ok x, .ok y =>
    if h : x = y then isTrue (by rw [h]) else isFalse (by simp [h])
  | .error x, .error y =>
    if h : x = y then isTrue (by rw [h]) else isFalse (by simp [h])
  | .ok _, .error _ => isFalse (by simp)
  | .error _, .ok _ => isFalse (by simp)

/-- Helper: `List.getD` through `List.map` at an in-range index. -/
theorem getD_map_of_lt {α β : Type} (f : α → β) (l : List α) (i : Nat)
    (h : i < l.length) (d' : β) (d : α) :
    (l.map f).getD i d' = f (l.getD i d) := by
  rw [List.getD_eq_getElem _ _ (by simpa using h), List.getD_eq_getElem _ _ h,
    List.getElem_map]

/-- Helper: `List.find?` returns the entry at the first index satisfying the
predicate when every earlier entry fails it. -/
theorem find?_eq_getD_of_first {α : Type} (p : α → Bool) (l : List α) (d : α)
    (j : Nat) (hj : j < l.length) (hpj : p (l.getD j d) = true)
    (hbefore : ∀ k, k < j → p (l.getD k d) = false) :
    l.find? p = some (l.getD j d) := by
  induction l generalizing j with
  | nil => simp at hj
  | cons a l ih =>
    cases j with
    | zero =>
      simp only [List.getD_cons_zero] at hpj ⊢
      exact List.find?_cons_of_pos l hpj
    | succ j =>
      have h0 : p a = false := by
        have := hbefore 0 (Nat.succ_pos j)
        simpa using this
      rw [List.find?_cons_of_neg l (by simp [h0]), List.getD_cons_succ]
      exact ih j (by simpa using hj) (by simpa using hpj)
        (fun k hk => by simpa using hbefore (k + 1) (by omega))

/-- Helper: the reconciler's output record at an in-range index, spelled out. -/
theorem mapResults_getD (cases : List TestCase) (res : JestRunResult)
    (locs : Option (List (Str × LocatorResult))) (i : Nat) (h : i < cases.length) :
    (mapResultsToTestCases cases res locs).getD i defaultTestCaseResult =
      { testCase := cases.getD i defaultTestCase
        status :=
          match res.testResults.find?
              (fun r => r.title = (cases.getD i defaultTestCase).summary) with
          | none => .NOT_FOUND
          | some m => if m.status = "passed".data then .PASS else .FAIL
        jestResult := res.testResults.find?
          (fun r => r.title = (cases.getD i defaultTestCase).summary)
        locations := locs.bind (fun mp => mp.lookup (cases.getD i defaultTestCase).summary)
        error := none } := by
  unfold mapResultsToTestCases
  exact getD_map_of_lt _ _ _ h _ _

/-- Test case `{title:"t1"}` of the reconcile scenario in the spec. -/
def exampleCaseT1 : TestCase := ⟨"K-1".data, "t1".data, [], .subtask, none⟩

/-- Test case `{title:"t2"}` of the reconcile scenario in the spec. -/
def exampleCaseT2 : TestCase := ⟨"K-2".data, "t2".data, [], .subtask, none⟩

/-- Runner output `[{reportedTitle:"t1", status:"passed"}]` of the reconcile
scenario in the spec. -/
def exampleJestRun : JestRunResult :=
  ⟨true, 0, [⟨"t1".data, "passed".data, none, none⟩], [], ⟨1, 1, 0⟩, [], none⟩

/-- C1: the reconciler assigns each test case the outcome determined by the
first runner entry (in runner-result order) whose title equals the case's
title under exact string equality: no such entry gives NOT_FOUND, a first
matching entry with status "passed" gives PASS, and any other status gives
FAIL; in particular, for cases `[{title:"t1"},{title:"t2"}]` and results
`[{reportedTitle:"t1", status:"passed"}]` the outcomes are
`[PASS, NOT_FOUND]`. -/
theorem claim_C1_reconciler_outcomes :
    (∀ (cases : List TestCase) (res : JestRunResult)
       (locs : Option (List (Str × LocatorResult))) (i : Nat),
      i < cases.length →
      ((∀ r ∈ res.testResults, r.title ≠ (cases.getD i defaultTestCase).summary) →
        ((mapResultsToTestCases cases res locs).getD i defaultTestCaseResult).status
          = .NOT_FOUND)
      ∧ (∀ j, j < res.testResults.length →
          (res.testResults.getD j defaultTestResult).title
            = (cases.getD i defaultTestCase).summary →
          (∀ k, k < j →
            (res.testResults.getD k defaultTestResult).title
              ≠ (cases.getD i defaultTestCase).summary) →
          ((mapResultsToTestCases cases res locs).getD i defaultTestCaseResult).status
            = (if (res.testResults.getD j defaultTestResult).status = "passed".data
               then .PASS else .FAIL)))
    ∧ (mapResultsToTestCases [exampleCaseT1, exampleCaseT2] exampleJestRun none).map
        (·.status) = [.PASS, .NOT_FOUND] := by
  constructor
  · intro cases res locs i hi
    constructor
    · intro hnone
      have hfind :
          res.testResults.find?
            (fun r => r.title = (cases.getD i defaultTestCase).summary) = none :=
        List.find?_eq_none.mpr (fun r hr => by simpa using hnone r hr)
      rw [mapResults_getD cases res locs i hi, hfind]
    · intro j hj hpj hbefore
      have hfind :
          res.testResults.find?
            (fun r => r.title = (cases.getD i defaultTestCase).summary)
            = some (res.testResults.getD j defaultTestResult) :=
        find?_eq_getD_of_first _ _ _ j hj (by simpa using hpj)
          (fun k hk => by simpa using hbefore k hk)
      rw [mapResults_getD cases res locs i hi, hfind]
  · decide

/-- Witness for C1 at the spec's concrete scenario: case "t2" has no matching
runner entry, so its outcome is NOT_FOUND. -/
theorem claim_C1_reconciler_outcomes_witness :
    ((mapResultsToTestCases [exampleCaseT1, exampleCaseT2] exampleJestRun none).getD 1
      defaultTestCaseResult).status = .NOT_FOUND :=
  (claim_C1_reconciler_outcomes.1 [exampleCaseT1, exampleCaseT2] exampleJestRun none 1
    (by decide)).1 (by decide)

/-- C2: the reconciler returns exactly one record per input test case (length
preservation), in input order and preserving multiplicity (the record at index
`i` carries exactly the input case at index `i`); a record's matched runner
entry is absent when no runner title matches, and when one or more runner
entries match the case's title the record carries the first matching entry in
the runner results' stable input order. -/
theorem claim_C2_reconciler_shape :
    (∀ (cases : List TestCase) (res : JestRunResult)
       (locs : Option (List (Str × LocatorResult))),
      (mapResultsToTestCases cases res locs).length = cases.length)
    ∧ (∀ (cases : List TestCase) (res : JestRunResult)
         (locs : Option (List (Str × LocatorResult))) (i : Nat),
        i < cases.length →
        ((mapResultsToTestCases cases res locs).getD i defaultTestCaseResult).testCase
          = cases.getD i defaultTestCase)
    ∧ (∀ (cases : List TestCase) (res : JestRunResult)
         (locs : Option (List (Str × LocatorResult))) (i : Nat),
        i < cases.length →
        (∀ r ∈ res.testResults, r.title ≠ (cases.getD i defaultTestCase).summary) →
        ((mapResultsToTestCases cases res locs).getD i defaultTestCaseResult).jestResult
          = none)
    ∧ (∀ (cases : List TestCase) (res : JestRunResult)
         (locs : Option (List (Str × LocatorResult))) (i j : Nat),
        i < cases.length → j < res.testResults.length →
        (res.testResults.getD j defaultTestResult).title
          = (cases.getD i defaultTestCase).summary →
        (∀ k, k < j →
          (res.testResults.getD k defaultTestResult).title
            ≠ (cases.getD i defaultTestCase).summary) →
        ((mapResultsToTestCases cases res locs).getD i defaultTestCaseResult).jestResult
          = some (res.testResults.getD j defaultTestResult)) := by
  refine ⟨fun cases res locs => by simp [mapResultsToTestCases], ?_, ?_, ?_⟩
  · intro cases res locs i hi
    rw [mapResults_getD cases res locs i hi]
  · intro cases res locs i hi hnone
    have hfind :
        res.testResults.find?
          (fun r => r.title = (cases.getD i defaultTestCase).summary) = none :=
      List.find?_eq_none.mpr (fun r hr => by simpa using hnone r hr)
    rw [mapResults_getD cases res locs i hi, hfind]
  · intro cases res locs i j hi hj hpj hbefore
    have hfind :
        res.testResults.find?
          (fun r => r.title = (cases.getD i defaultTestCase).summary)
          = some (res.testResults.getD j defaultTestResult) :=
      find?_eq_getD_of_first _ _ _ j hj (by simpa using hpj)
        (fun k hk => by simpa using hbefore k hk)
    rw [mapResults_getD cases res locs i hi, hfind]

/-- Witness for C2 at the spec's concrete scenario: two runner entries share
title "t1" and the reconciler stores the first of them on case "t1". -/
theorem claim_C2_reconciler_shape_witness :
    ((mapResultsToTestCases [exampleCaseT1, exampleCaseT2]
        ⟨false, 1, [⟨"t1".data, "failed".data, none, none⟩,
          ⟨"t1".data, "passed".data, none, none⟩], [], ⟨2, 1, 1⟩, [], none⟩
        none).getD 0 defaultTestCaseResult).jestResult
      = some ⟨"t1".data, "failed".data, none, none⟩ :=
  claim_C2_reconciler_shape.2.2.2 [exampleCaseT1, exampleCaseT2]
    ⟨false, 1, [⟨"t1".data, "failed".data, none, none⟩,
      ⟨"t1".data, "passed".data, none, none⟩], [], ⟨2, 1, 1⟩, [], none⟩
    none 0 0 (by decide) (by decide) (by decide)
    (fun k hk => absurd hk (Nat.not_lt_zero k))

/-- Parser step: a backslash escape contributes the escaped character as a
literal atom. -/
theorem parseLoop_step_backslash (c2 : Char) (rest2 : Str)
    (stack : List (List Regex × List Regex)) (altAcc seqAcc : List Regex) :
    parseLoop ('\\' :: c2 :: rest2) stack altAcc seqAcc
      = parseLoop rest2 stack altAcc (.char c2 :: seqAcc) := rfl

/-- Parser step: an opening parenthesis saves the current context. -/
theorem parseLoop_step_lparen (rest : Str)
    (stack : List (List Regex × List Regex)) (altAcc seqAcc : List Regex) :
    parseLoop ('(' :: rest) stack altAcc seqAcc
      = parseLoop rest ((altAcc, seqAcc) :: stack) [] [] := by
  rw [parseLoop.eq_def]
  simp +decide

/-- Parser step: a closing parenthesis pops the saved context and appends the
finished group as an atom. -/
theorem parseLoop_step_rparen (rest : Str) (sa ss : List Regex)
    (stack : List (List Regex × List Regex)) (altAcc seqAcc : List Regex) :
    parseLoop (')' :: rest) ((sa, ss) :: stack) altAcc seqAcc
      = parseLoop rest stack sa
          (mkAltsList altAcc.reverse (mkConcat seqAcc.reverse) :: ss) := by
  rw [parseLoop.eq_def]
  simp +decide

/-- Parser step: an alternation bar closes the current concatenation. -/
theorem parseLoop_step_pipe (rest : Str)
    (stack : List (List Regex × List Regex)) (altAcc seqAcc : List Regex) :
    parseLoop ('|' :: rest) stack altAcc seqAcc
      = parseLoop rest stack (mkConcat seqAcc.reverse :: altAcc) [] := by
  rw [parseLoop.eq_def]
  simp +decide

/-- Parser step: the end anchor is an atom. -/
theorem parseLoop_step_dollar (rest : Str)
    (stack : List (List Regex × List Regex)) (altAcc seqAcc : List Regex) :
    parseLoop ('$' :: rest) stack altAcc seqAcc
      = parseLoop rest stack altAcc (.dollar :: seqAcc) := by
  rw [parseLoop.eq_def]
  simp +decide

/-- Parser step: any character outside the special set is a literal atom. -/
theorem parseLoop_step_lit (c : Char) (hc : c ∉ specialChars) (rest : Str)
    (stack : List (List Regex × List Regex)) (altAcc seqAcc : List Regex) :
    parseLoop (c :: rest) stack altAcc seqAcc
      = parseLoop rest stack altAcc (.char c :: seqAcc) := by
  have h1 : ¬ c = '\\' := fun e => hc (by simp [specialChars, e])
  have h2 : ¬ c = '(' := fun e => hc (by simp [specialChars, e])
  have h3 : ¬ c = ')' := fun e => hc (by simp [specialChars, e])
  have h4 : ¬ c = '|' := fun e => hc (by simp [specialChars, e])
  have h5 : ¬ c = '$' := fun e => hc (by simp [specialChars, e])
  have h6 : ¬ c = '^' := fun e => hc (by simp [specialChars, e])
  have h7 : ¬ c = '.' := fun e => hc (by simp [specialChars, e])
  have h8 : c ∉ unsupportedRegexChars := by
    intro hm
    apply hc
    simp only [unsupportedRegexChars, List.mem_cons, List.not_mem_nil, or_false] at hm
    rcases hm with e | e | e | e | e | e | e <;> simp [specialChars, e]
  rw [parseLoop.eq_def]
  simp [h1, h2, h3, h4, h5, h6, h7, h8]

/-- Processing an escaped string appends its characters, as literal atoms, to
the current concatenation. -/
theorem parseLoop_escape (s : Str) (rest : Str)
    (stack : List (List Regex × List Regex)) (altAcc : List Regex) :
    ∀ seqAcc : List Regex,
      parseLoop (escapeRegex s ++ rest) stack altAcc seqAcc
        = parseLoop rest stack altAcc ((s.map Regex.char).reverse ++ seqAcc) := by
  induction s with
  | nil => intro seqAcc; simp [escapeRegex]
  | cons c s ih =>
    intro seqAcc
    by_cases hc : c ∈ specialChars
    · have he : escapeRegex (c :: s) = '\\' :: c :: escapeRegex s := by
        simp [escapeRegex, hc]
      rw [he, List.cons_append, List.cons_append, parseLoop_step_backslash, ih]
      simp
    · have he : escapeRegex (c :: s) = c :: escapeRegex s := by
        simp [escapeRegex, hc]
      rw [he, List.cons_append, parseLoop_step_lit c hc, ih]
      simp

/-- The escaper's output parses back to exactly the literal regex of its
input. -/
theorem parseRegex_escapeRegex (s : Str) :
    parseRegex (escapeRegex s) = some (literalRegex s) := by
  unfold parseRegex
  have h := parseLoop_escape s [] [] [] []
  rw [List.append_nil] at h
  rw [h]
  simp [parseLoop, mkAltsList, literalRegex]

/-- Processing one parenthesized exact-match group appends one atom to the
current concatenation. -/
theorem parseLoop_group (t : Str) (rest : Str)
    (stack : List (List Regex × List Regex)) (altAcc seqAcc : List Regex) :
    parseLoop (('(' :: (createExactMatchPattern t ++ [')'])) ++ rest) stack altAcc seqAcc
      = parseLoop rest stack altAcc
          (mkConcat (t.map Regex.char ++ [Regex.dollar]) :: seqAcc) := by
  have hshape :
      ('(' :: (createExactMatchPattern t ++ [')'])) ++ rest
        = '(' :: (escapeRegex t ++ ('$' :: ')' :: rest)) := by
    simp [createExactMatchPattern]
  rw [hshape, parseLoop_step_lparen, parseLoop_escape, parseLoop_step_dollar,
    parseLoop_step_rparen]
  simp [mkAltsList]

/-- Processing a nonempty `|`-joined sequence of parenthesized exact-match
groups always parses to the end of the input successfully. -/
theorem parseLoop_groups (t : Str) (ts : List Str) (altAcc : List Regex) :
    ∃ r, parseLoop
        (List.intercalate ['|']
          ((t :: ts).map (fun u => '(' :: (createExactMatchPattern u ++ [')']))))
        [] altAcc [] = some r := by
  induction ts generalizing t altAcc with
  | nil =>
    rw [List.map_singleton, show List.intercalate ['|']
        [('(' :: (createExactMatchPattern t ++ [')']))]
        = ('(' :: (createExactMatchPattern t ++ [')'])) ++ [] by
      simp [List.intercalate]]
    rw [parseLoop_group]
    exact ⟨_, rfl⟩
  | cons t2 ts ih =>
    have hstep :
        List.intercalate ['|']
            ((t :: t2 :: ts).map (fun u => '(' :: (createExactMatchPattern u ++ [')'])))
          = ('(' :: (createExactMatchPattern t ++ [')']))
            ++ ('|' :: List.intercalate ['|']
                  ((t2 :: ts).map (fun u => '(' :: (createExactMatchPattern u ++ [')'])))) := by
      simp [List.intercalate, List.intersperse]
    rw [hstep, parseLoop_group, parseLoop_step_pipe]
    exact ih t2 _

/-- Every pattern the builder can emit compiles in the regex model. -/
theorem isValidRegex_createCombinedPattern (titles : List Str) :
    isValidRegex (createCombinedPattern titles) = true := by
  match titles with
  | [] => decide
  | [t] =>
    have h : parseRegex (createCombinedPattern [t])
        = parseLoop (escapeRegex t ++ ['$']) [] [] [] := rfl
    rw [isValidRegex, h, parseLoop_escape, parseLoop_step_dollar]
    rfl
  | t1 :: t2 :: ts =>
    rw [isValidRegex]
    have h : createCombinedPattern (t1 :: t2 :: ts)
        = List.intercalate ['|']
            ((t1 :: t2 :: ts).map (fun u => '(' :: (createExactMatchPattern u ++ [')']))) := rfl
    rw [parseRegex, h]
    obtain ⟨r, hr⟩ := parseLoop_groups t1 (t2 :: ts) []
    rw [hr]
    rfl

/-- Matching a literal regex from position `i` succeeds exactly when the
literal string occurs at position `i`, and then ends right after it. -/
theorem ends_literalRegex (s t : Str) :
    ∀ i : Nat, ends (literalRegex s) t i
      = if s <+: t.drop i then [i + s.length] else [] := by
  induction s with
  | nil =>
    intro i
    have : ([] : Str) <+: t.drop i := ⟨t.drop i, rfl⟩
    simp [literalRegex, mkConcat, ends, this]
  | cons c s ih =>
    intro i
    have hsplit : literalRegex (c :: s) = .seq (.char c) (literalRegex s) := rfl
    rw [hsplit]
    cases hti : t[i]? with
    | none =>
      have hdrop : t.drop i = [] :=
        List.drop_eq_nil_iff.mpr (List.getElem?_eq_none_iff.mp hti)
      have hnp : ¬ (c :: s <+: t.drop i) := by
        rw [hdrop]
        rintro ⟨u, hu⟩
        simp at hu
      simp [ends, hti, hnp]
    | some c2 =>
      obtain ⟨hlt, hget⟩ := List.getElem?_eq_some_iff.mp hti
      have hdrop : t.drop i = c2 :: t.drop (i + 1) := by
        rw [List.drop_eq_getElem_cons hlt, hget]
      by_cases hc : c2 = c
      · subst hc
        have hpre : (c2 :: s <+: t.drop i) ↔ (s <+: t.drop (i + 1)) := by
          rw [hdrop, List.cons_prefix_cons]
          simp
        have hchar : ends (.char c2) t i = [i + 1] := by simp [ends, hti]
        have hseq : ends (.seq (.char c2) (literalRegex s)) t i
            = (ends (.char c2) t i).flatMap (fun j => ends (literalRegex s) t j) := rfl
        rw [hseq, hchar]
        simp only [List.flatMap_cons, List.flatMap_nil, List.append_nil, ih (i + 1), hpre]
        by_cases hp : s <+: t.drop (i + 1)
        · rw [if_pos hp, if_pos hp]
          have : i + 1 + s.length = i + (c2 :: s).length := by simp; omega
          rw [this]
        · rw [if_neg hp, if_neg hp]
      · have hnp : ¬ (c :: s <+: t.drop i) := by
          rw [hdrop, List.cons_prefix_cons]
          rintro ⟨he, -⟩
          exact hc he.symm
        simp [ends, hti, hc, hnp]

/-- The literal regex of `s`, tested unanchored, accepts exactly the strings
containing `s` as a contiguous substring. -/
theorem regexTest_literalRegex (s t : Str) :
    regexTest (literalRegex s) t = true ↔ s <:+: t := by
  unfold regexTest
  rw [List.any_eq_true]
  constructor
  · rintro ⟨i, -, hne⟩
    rw [ends_literalRegex s t i] at hne
    by_cases hp : s <+: t.drop i
    · have h1 : s <:+: t.drop i := List.IsPrefix.isInfix hp
      have h2 : t.drop i <:+: t := List.IsSuffix.isInfix (List.drop_suffix i t)
      exact List.IsInfix.trans h1 h2
    · simp [hp] at hne
  · rintro ⟨u, v, huv⟩
    refine ⟨u.length, ?_, ?_⟩
    · rw [List.mem_range]
      have : u.length ≤ t.length := by
        rw [← huv]
        simp [List.length_append]
      omega
    · have hdrop : t.drop u.length = s ++ v := by
        rw [← huv, List.append_assoc, List.drop_left]
      rw [ends_literalRegex s t u.length, hdrop,
        if_pos (List.prefix_append s v)]
      simp

/-- Relational specification of escaping, independent of the implementation:
the output is the input with a backslash inserted before every special
character and all other characters unchanged. -/
inductive Escapes : Str → Str → Prop where
  | nil : Escapes [] []
  | special {c : Char} {s t : Str} :
      c ∈ specialChars → Escapes s t → Escapes (c :: s) ('\\' :: c :: t)
  | plain {c : Char} {s t : Str} :
      c ∉ specialChars → Escapes s t → Escapes (c :: s) (c :: t)

/-- C3: the escaper is total, maps the empty string to the empty string,
precedes every special character with a backslash while passing every other
character through unchanged, and its output compiled as a regular expression
matches exactly the literal input string (occurring as a contiguous
substring of the haystack), with no special character reinterpreted. -/
theorem claim_C3_escaper_literal :
    escapeRegex [] = []
    ∧ (∀ s : Str, Escapes s (escapeRegex s))
    ∧ (∀ s : Str, parseRegex (escapeRegex s) = some (literalRegex s))
    ∧ (∀ s t : Str, regexTest (literalRegex s) t = true ↔ s <:+: t) := by
  refine ⟨rfl, ?_, parseRegex_escapeRegex, regexTest_literalRegex⟩
  intro s
  induction s with
  | nil => exact .nil
  | cons c s ih =>
    by_cases hc : c ∈ specialChars
    · have he : escapeRegex (c :: s) = '\\' :: c :: escapeRegex s := by
        simp [escapeRegex, hc]
      rw [he]
      exact .special hc ih
    · have he : escapeRegex (c :: s) = c :: escapeRegex s := by
        simp [escapeRegex, hc]
      rw [he]
      exact .plain hc ih

/-- Witness for C3 at a concrete input with a special character. -/
theorem claim_C3_escaper_literal_witness :
    parseRegex (escapeRegex "a.b".data) = some (literalRegex "a.b".data)
    ∧ regexTest (literalRegex "a.b".data) "xa.by".data = true
    ∧ regexTest (literalRegex "a.b".data) "axb".data = false := by
  refine ⟨claim_C3_escaper_literal.2.2.1 "a.b".data,
    (claim_C3_escaper_literal.2.2.2 "a.b".data "xa.by".data).mpr (by decide), ?_⟩
  by_cases h : regexTest (literalRegex "a.b".data) "axb".data = true
  · exact absurd ((claim_C3_escaper_literal.2.2.2 "a.b".data "axb".data).mp h)
      (by decide)
  · simpa using h

/-- C4: the combined-pattern builder maps zero titles to the empty string, one
title to its exact-match pattern (escaped title plus trailing end anchor, no
leading anchor), and several titles to their parenthesized exact-match
patterns joined with the alternation bar in input order, with no
deduplication; in particular titles "a","b" give "(a$)|(b$)" and the repeated
titles "a","a" give "(a$)|(a$)". -/
theorem claim_C4_combined_pattern :
    createCombinedPattern [] = []
    ∧ (∀ t : Str, createCombinedPattern [t] = escapeRegex t ++ ['$'])
    ∧ (∀ ts : List Str, 2 ≤ ts.length →
        createCombinedPattern ts
          = List.intercalate ['|'] (ts.map (fun t => '(' :: (escapeRegex t ++ ['$', ')']))))
    ∧ createCombinedPattern ["a".data, "b".data] = "(a$)|(b$)".data
    ∧ createCombinedPattern ["a".data, "a".data] = "(a$)|(a$)".data := by
  refine ⟨rfl, fun t => rfl, ?_, by decide, by decide⟩
  intro ts hts
  match ts, hts with
  | t1 :: t2 :: rest, _ =>
    show List.intercalate ['|']
        ((t1 :: t2 :: rest).map (fun t => '(' :: (createExactMatchPattern t ++ [')'])))
      = _
    simp [createExactMatchPattern]

/-- Witness for C4's universally quantified parts at concrete titles. -/
theorem claim_C4_combined_pattern_witness :
    createCombinedPattern ["a+b".data] = "a\\+b$".data
    ∧ createCombinedPattern ["a".data, "b".data, "c".data]
        = List.intercalate ['|']
            ((["a".data, "b".data, "c".data] : List Str).map
              (fun t => '(' :: (escapeRegex t ++ ['$', ')']))) := by
  constructor
  · rw [claim_C4_combined_pattern.2.1 "a+b".data]
    decide
  · exact claim_C4_combined_pattern.2.2.1 ["a".data, "b".data, "c".data] (by decide)

/-- Test case with title "a" from the spec's pattern example. -/
def exampleCaseA : TestCase := ⟨"K-1".data, "a".data, [], .subtask, none⟩

/-- Test case with title "b" from the spec's pattern example. -/
def exampleCaseB : TestCase := ⟨"K-2".data, "b".data, [], .subtask, none⟩

/-- Counterexample to C5: the engine DOES match the full name "ab" against
the pattern "(a$)|(b$)", because "ab" ends with the title "b" and the
alternative "b$" is end-anchored only; the claim asserts it does not match. -/
theorem claim_C5_counterexample :
    testPattern "(a$)|(b$)".data "ab".data = true := by decide

/-- C5 amended: buildPattern on titles "a","b" in title mode produces exactly
the pattern "(a$)|(b$)", and the engine matches the full names "a" and
"Suite a"; contrary to the claim it also matches "ab", since "ab" ends with
the second title "b". -/
theorem claim_C5_example_pattern :
    createTestPattern [exampleCaseA, exampleCaseB] ⟨"title".data, none⟩
      = .ok ⟨"(a$)|(b$)".data, [exampleCaseA, exampleCaseB], []⟩
    ∧ testPattern "(a$)|(b$)".data "a".data = true
    ∧ testPattern "(a$)|(b$)".data "Suite a".data = true
    ∧ testPattern "(a$)|(b$)".data "ab".data = true := by
  refine ⟨by decide, by decide, by decide, by decide⟩

/-- C9: every pattern built from escaped titles compiles as a regular
expression in the engine model, so the defensive PatternConstructionError
branch of `createTestPattern` is unreachable: no input makes it return that
error. -/
theorem claim_C9_defensive_check_unreachable :
    (∀ titles : List Str, isValidRegex (createCombinedPattern titles) = true)
    ∧ (∀ (cases : List TestCase) (opts : MatcherOptions),
        createTestPattern cases opts ≠ .error .invalidGeneratedPattern) := by
  refine ⟨isValidRegex_createCombinedPattern, ?_⟩
  intro cases opts
  simp only [createTestPattern]
  split_ifs with h1 h2 h3 h4 h5
  all_goals simp_all [isValidRegex_createCombinedPattern]

/-- Witness for C9 at concrete inputs. -/
theorem claim_C9_defensive_check_unreachable_witness :
    isValidRegex (createCombinedPattern ["a".data, "b".data]) = true
    ∧ createTestPattern [exampleCaseA] ⟨"title".data, none⟩
        ≠ .error .invalidGeneratedPattern :=
  ⟨claim_C9_defensive_check_unreachable.1 ["a".data, "b".data],
    claim_C9_defensive_check_unreachable.2 [exampleCaseA] ⟨"title".data, none⟩⟩

/-- C7: empty input in title mode short-circuits to the empty result, with no
error. -/
theorem claim_C7_empty_input :
    createTestPattern [] ⟨"title".data, none⟩ = .ok ⟨[], [], []⟩ := by decide

/-- Counterexample to C6: two mode values other than "title" do NOT produce
an UnsupportedModeError — with an empty test-case list mode "summary" returns
the empty result (the empty-input short-circuit precedes the mode check), and
mode "ticket-key" with a key returns the key as pattern. -/
theorem claim_C6_counterexample :
    createTestPattern [] ⟨"summary".data, none⟩ = .ok ⟨[], [], []⟩
    ∧ createTestPattern [exampleCaseA] ⟨"ticket-key".data, some "HOTEL-1".data⟩
        = .ok ⟨"HOTEL-1".data, [exampleCaseA], []⟩ :=
  ⟨by decide, by decide⟩

/-- C6 amended: for every NON-EMPTY test-case list and every mode other than
"title" and "ticket-key", buildPattern fails with an UnsupportedModeError
naming the offending mode; with an empty list any such mode instead returns
the empty result; in particular buildPattern(cases, "summary") fails with
UnsupportedModeError for non-empty cases. -/
theorem claim_C6_unsupported_mode :
    (∀ (cases : List TestCase) (mode : Str) (jk : Option Str),
      cases ≠ [] → mode ≠ "title".data → mode ≠ "ticket-key".data →
      createTestPattern cases ⟨mode, jk⟩ = .error (.unsupportedMode mode))
    ∧ (∀ (mode : Str) (jk : Option Str), mode ≠ "ticket-key".data →
        createTestPattern [] ⟨mode, jk⟩ = .ok ⟨[], [], []⟩)
    ∧ createTestPattern [exampleCaseA] ⟨"summary".data, none⟩
        = .error (.unsupportedMode "summary".data) := by
  refine ⟨?_, ?_, by decide⟩
  · intro cases mode jk hne hm ht
    have hlen : ¬ (cases.length = 0) := by simpa using hne
    simp [createTestPattern, hm, ht, hlen]
  · intro mode jk ht
    simp [createTestPattern, ht]

/-- Witness for C6 (amended) at a concrete non-empty input and mode. -/
theorem claim_C6_unsupported_mode_witness :
    createTestPattern [exampleCaseB] ⟨"regex".data, none⟩
      = .error (.unsupportedMode "regex".data) :=
  claim_C6_unsupported_mode.1 [exampleCaseB] "regex".data none
    (by decide) (by decide) (by decide)

/-- Counterexample to C10: with jiraKey present but equal to the empty string,
ticket-key mode throws (the source tests JS falsiness, not absence), instead
of returning the empty pattern as the claim requires for any present key. -/
theorem claim_C10_counterexample :
    createTestPattern [] ⟨"ticket-key".data, some []⟩ = .error .jiraKeyRequired
    ∧ createTestPattern [] ⟨"ticket-key".data, some []⟩ ≠ .ok ⟨[], [], []⟩ :=
  ⟨by decide, by decide⟩

/-- C10 amended: ticket-key mode returns the key verbatim as the pattern (no
regex escaping), with the input test cases unchanged and no warnings, for
every test-case list (including the empty list, since this branch precedes
the empty-input and mode checks) and every present NON-EMPTY key; it throws
when the key is absent or empty (JS falsiness of `!options.jiraKey`). -/
theorem claim_C10_ticket_key_mode :
    (∀ (cases : List TestCase) (k : Str), k ≠ [] →
      createTestPattern cases ⟨"ticket-key".data, some k⟩ = .ok ⟨k, cases, []⟩)
    ∧ (∀ cases : List TestCase,
        createTestPattern cases ⟨"ticket-key".data, none⟩ = .error .jiraKeyRequired)
    ∧ (∀ cases : List TestCase,
        createTestPattern cases ⟨"ticket-key".data, some []⟩
          = .error .jiraKeyRequired) := by
  refine ⟨?_, ?_, ?_⟩
  · intro cases k hk
    simp [createTestPattern, hk]
  · intro cases
    simp [createTestPattern]
  · intro cases
    simp [createTestPattern]

/-- Witness for C10 (amended): a key containing regex special characters is
used verbatim, on the empty test-case list. -/
theorem claim_C10_ticket_key_mode_witness :
    createTestPattern [] ⟨"ticket-key".data, some "HOTEL-27752".data⟩
      = .ok ⟨"HOTEL-27752".data, [], []⟩ :=
  claim_C10_ticket_key_mode.1 [] "HOTEL-27752".data (by decide)

/-- Modelled from the spec: the case-sensitive deduplicated sequence of unique
titles in first-occurrence order, written as a left fold independently of the
implementation's `Set`-based dedup. -/
def firstOccurrences (l : List Str) : List Str :=
  l.foldl (fun acc a => if a ∈ acc then acc else acc ++ [a]) []

/-- The dedup helper depends on the seen set only through membership. -/
theorem setDedupAux_congr (l : List Str) :
    ∀ seen seen' : List Str, (∀ a, a ∈ seen ↔ a ∈ seen') →
      setDedupAux l seen = setDedupAux l seen' := by
  induction l with
  | nil => intro seen seen' _; rfl
  | cons a l ih =>
    intro seen seen' h
    simp only [setDedupAux]
    by_cases ha : a ∈ seen
    · rw [if_pos ha, if_pos ((h a).mp ha), ih seen seen' h]
    · rw [if_neg ha, if_neg (fun hx => ha ((h a).mpr hx)),
        ih (a :: seen) (a :: seen') (fun b => by simp [h b])]

/-- The spec-side fold accumulates exactly the implementation's dedup. -/
theorem foldl_dedup_eq_setDedupAux (l : List Str) :
    ∀ acc : List Str,
      l.foldl (fun acc a => if a ∈ acc then acc else acc ++ [a]) acc
        = acc ++ setDedupAux l acc := by
  induction l with
  | nil => intro acc; simp [setDedupAux]
  | cons a l ih =>
    intro acc
    simp only [List.foldl_cons, setDedupAux]
    by_cases ha : a ∈ acc
    · rw [if_pos ha, if_pos ha, ih acc]
    · rw [if_neg ha, if_neg ha, ih (acc ++ [a]),
        setDedupAux_congr l (acc ++ [a]) (a :: acc) (fun b => by simp; tauto)]
      simp

/-- The spec-side first-occurrence fold equals the implementation's dedup. -/
theorem firstOccurrences_eq_setDedup (l : List Str) :
    firstOccurrences l = setDedup l := by
  unfold firstOccurrences setDedup
  simpa using foldl_dedup_eq_setDedupAux l []

/-- Dedup never lengthens a list. -/
theorem setDedupAux_length_le (l : List Str) :
    ∀ seen : List Str, (setDedupAux l seen).length ≤ l.length := by
  induction l with
  | nil => intro seen; simp [setDedupAux]
  | cons a l ih =>
    intro seen
    simp only [setDedupAux]
    by_cases ha : a ∈ seen
    · rw [if_pos ha]
      exact Nat.le_succ_of_le (ih seen)
    · rw [if_neg ha]
      simpa using ih (a :: seen)

/-- An element of the dedup output is an unseen element of the input. -/
theorem setDedupAux_mem (l : List Str) :
    ∀ (seen : List Str) (a : Str),
      a ∈ setDedupAux l seen ↔ a ∈ l ∧ a ∉ seen := by
  induction l with
  | nil => intro seen a; simp [setDedupAux]
  | cons b l ih =>
    intro seen a
    simp only [setDedupAux]
    by_cases hb : b ∈ seen
    · rw [if_pos hb, ih seen a]
      constructor
      · rintro ⟨h1, h2⟩
        exact ⟨List.mem_cons_of_mem b h1, h2⟩
      · rintro ⟨h1, h2⟩
        rcases List.mem_cons.mp h1 with rfl | h1
        · exact absurd hb h2
        · exact ⟨h1, h2⟩
    · rw [if_neg hb]
      simp only [List.mem_cons, ih (b :: seen) a]
      constructor
      · rintro (rfl | ⟨h1, h2⟩)
        · exact ⟨Or.inl rfl, hb⟩
        · exact ⟨Or.inr h1, fun hx => h2 (Or.inr hx)⟩
      · rintro ⟨rfl | h1, h2⟩
        · exact Or.inl rfl
        · by_cases hab : a = b
          · exact Or.inl hab
          · exact Or.inr ⟨h1, by simp [hab, h2]⟩

/-- The dedup output has no duplicates. -/
theorem setDedupAux_nodup (l : List Str) :
    ∀ seen : List Str, (setDedupAux l seen).Nodup := by
  induction l with
  | nil => intro seen; simp [setDedupAux]
  | cons a l ih =>
    intro seen
    simp only [setDedupAux]
    by_cases ha : a ∈ seen
    · rw [if_pos ha]; exact ih seen
    · rw [if_neg ha]
      refine List.nodup_cons.mpr ⟨?_, ih (a :: seen)⟩
      intro hmem
      exact ((setDedupAux_mem l (a :: seen) a).mp hmem).2 (List.mem_cons_self a seen)

/-- If dedup preserves the length then the input had no duplicates and no
element was already seen. -/
theorem setDedupAux_length_eq (l : List Str) :
    ∀ seen : List Str, (setDedupAux l seen).length = l.length →
      (∀ a ∈ l, a ∉ seen) ∧ l.Nodup := by
  induction l with
  | nil => intro seen _; simp
  | cons a l ih =>
    intro seen hlen
    simp only [setDedupAux] at hlen
    by_cases ha : a ∈ seen
    · rw [if_pos ha] at hlen
      have := setDedupAux_length_le l seen
      simp [hlen] at this
    · rw [if_neg ha] at hlen
      simp only [List.length_cons, Nat.add_right_cancel_iff] at hlen
      obtain ⟨hnot, hnodup⟩ := ih (a :: seen) hlen
      have hanl : a ∉ l := fun hal => (hnot a hal) (List.mem_cons_self a seen)
      refine ⟨?_, List.nodup_cons.mpr ⟨hanl, hnodup⟩⟩
      intro b hb
      rcases List.mem_cons.mp hb with rfl | hb
      · exact ha
      · exact fun hbs => (hnot b hb) (List.mem_cons_of_mem a hbs)

/-- In a list with no duplicates every element occurs at most once. -/
theorem count_le_one_of_nodup (l : List Str) (h : l.Nodup) (t : Str) :
    List.count t l ≤ 1 := by
  induction l with
  | nil => simp
  | cons a l ih =>
    obtain ⟨hal, hn⟩ := List.nodup_cons.mp h
    rw [List.count_cons]
    by_cases hta : a = t
    · subst hta
      have hz : List.count a l = 0 := List.count_eq_zero.mpr hal
      simp [hz]
    · have hbeq : (a == t) = false := by
        simpa using hta
      simp only [hbeq, if_false]
      simpa using ih hn

/-- A list with no duplicates produces no duplicate warnings. -/
theorem duplicateWarnings_eq_nil_of_nodup (l : List Str) (h : l.Nodup) :
    duplicateWarnings l = [] := by
  rw [duplicateWarnings, List.filterMap_eq_nil_iff]
  intro t _
  have hc : List.count t l ≤ 1 := count_le_one_of_nodup l h t
  rw [if_neg (by omega)]

/-- The duplicate-warning guard of `createTestPattern` collapses: the guarded
expression always equals `duplicateWarnings`. -/
theorem warnings_guard_eq (titles : List Str) :
    (if (setDedup titles).length < titles.length
     then duplicateWarnings titles else [])
      = duplicateWarnings titles := by
  by_cases h : (setDedup titles).length < titles.length
  · rw [if_pos h]
  · rw [if_neg h]
    have hle := setDedupAux_length_le titles []
    have heq : (setDedup titles).length = titles.length := by
      unfold setDedup at h ⊢
      omega
    have hnodup := (setDedupAux_length_eq titles [] heq).2
    rw [duplicateWarnings_eq_nil_of_nodup titles hnodup]

/-- A filterMap whose function is an if-then-some-else-none is a filter
followed by a map. -/
theorem filterMap_if_eq_filter_map {α β : Type} (p : α → Prop) [DecidablePred p]
    (g : α → β) (l : List α) :
    l.filterMap (fun a => if p a then some (g a) else none)
      = (l.filter (fun a => p a)).map g := by
  induction l with
  | nil => rfl
  | cons a l ih =>
    by_cases ha : p a
    · simp [List.filterMap_cons, List.filter_cons, ha, ih]
    · simp [List.filterMap_cons, List.filter_cons, ha, ih]

/-- Test case with duplicated title "x" (subtask origin). -/
def exampleCaseX1 : TestCase := ⟨"K-1".data, "x".data, [], .subtask, none⟩

/-- Second test case with the same title "x" (linked-issue origin). -/
def exampleCaseX2 : TestCase := ⟨"K-2".data, "x".data, [], .linked, some "Tests".data⟩

/-- C8: in title mode on a non-empty list the pattern is built from the
case-sensitive deduplicated title sequence in first-occurrence order (not the
raw list); the warnings are exactly one per title occurring more than once,
naming the title and its occurrence count and stating all matches will be
run, in first-seen order, and absent when titles are distinct; and the
returned testCases field is the original input list unmodified, duplicates
included — in particular two cases titled "x" give one warning with count 2
and a testCases field of length 2. -/
theorem claim_C8_title_mode_dedup_warnings :
    (∀ (cases : List TestCase) (jk : Option Str), cases ≠ [] →
      createTestPattern cases ⟨"title".data, jk⟩
        = .ok ⟨createCombinedPattern (firstOccurrences (cases.map (·.summary))),
               cases,
               ((firstOccurrences (cases.map (·.summary))).filter
                  (fun t => 1 < (cases.map (·.summary)).count t)).map
                 (fun t => dupWarning t ((cases.map (·.summary)).count t))⟩)
    ∧ (∀ titles : List Str, (firstOccurrences titles).Nodup
        ∧ (∀ t, t ∈ firstOccurrences titles ↔ t ∈ titles))
    ∧ (∀ (cases : List TestCase) (jk : Option Str),
        (cases.map (·.summary)).Nodup →
        createTestPattern cases ⟨"title".data, jk⟩
          = .ok ⟨createCombinedPattern (firstOccurrences (cases.map (·.summary))),
                 cases, []⟩)
    ∧ createTestPattern [exampleCaseX1, exampleCaseX2] ⟨"title".data, none⟩
        = .ok ⟨"x$".data, [exampleCaseX1, exampleCaseX2], [dupWarning "x".data 2]⟩
    ∧ dupWarning "x".data 2
        = "Duplicate test title \"x\" found in 2 Jira test cases. All matches will be run.".data := by
  have hfilter : ∀ cases : List TestCase, (cases.map (·.summary)).Nodup →
      ((firstOccurrences (cases.map (·.summary))).filter
        (fun t => 1 < (cases.map (·.summary)).count t)).map
          (fun t => dupWarning t ((cases.map (·.summary)).count t)) = [] := by
    intro cases hnodup
    have hf : ((firstOccurrences (cases.map (·.summary))).filter
        (fun t => 1 < (cases.map (·.summary)).count t)) = [] := by
      rw [List.filter_eq_nil_iff]
      intro t _
      have hc := count_le_one_of_nodup (cases.map (·.summary)) hnodup t
      simp only [decide_eq_true_eq]
      omega
    rw [hf, List.map_nil]
  have hmain : ∀ (cases : List TestCase) (jk : Option Str), cases ≠ [] →
      createTestPattern cases ⟨"title".data, jk⟩
        = .ok ⟨createCombinedPattern (firstOccurrences (cases.map (·.summary))),
               cases,
               ((firstOccurrences (cases.map (·.summary))).filter
                  (fun t => 1 < (cases.map (·.summary)).count t)).map
                 (fun t => dupWarning t ((cases.map (·.summary)).count t))⟩ := by
    intro cases jk hne
    have hlen : ¬ (cases.length = 0) := by simpa using hne
    simp +decide [createTestPattern, hlen, isValidRegex_createCombinedPattern,
      firstOccurrences_eq_setDedup, duplicateWarnings, filterMap_if_eq_filter_map]
    intro hge a _
    have hle := setDedupAux_length_le (cases.map (·.summary)) []
    have heq : (setDedupAux (cases.map (·.summary)) []).length
        = (cases.map (·.summary)).length := by
      have hml : (cases.map (·.summary)).length = cases.length := by simp
      simp only [setDedup] at hge
      omega
    exact count_le_one_of_nodup (cases.map (·.summary))
      (setDedupAux_length_eq (cases.map (·.summary)) [] heq).2 a
  refine ⟨hmain, ?_, ?_, by decide, by decide⟩
  · intro titles
    rw [firstOccurrences_eq_setDedup]
    refine ⟨setDedupAux_nodup titles [], fun t => ?_⟩
    rw [setDedup, setDedupAux_mem titles [] t]
    simp
  · intro cases jk hnodup
    by_cases hne : cases = []
    · subst hne
      simp +decide [createTestPattern, firstOccurrences, createCombinedPattern]
    · rw [hmain cases jk hne, hfilter cases hnodup]


/-- Witness for C8 at a concrete duplicated input. -/
theorem claim_C8_title_mode_dedup_warnings_witness :
    createTestPattern [exampleCaseX1, exampleCaseX2, exampleCaseA] ⟨"title".data, none⟩
      = .ok ⟨createCombinedPattern
               (firstOccurrences
                 (([exampleCaseX1, exampleCaseX2, exampleCaseA]).map (·.summary))),
             [exampleCaseX1, exampleCaseX2, exampleCaseA],
             ((firstOccurrences
                 (([exampleCaseX1, exampleCaseX2, exampleCaseA]).map (·.summary))).filter
                (fun t => 1 < (([exampleCaseX1, exampleCaseX2, exampleCaseA]).map
                    (·.summary)).count t)).map
               (fun t => dupWarning t
                 ((([exampleCaseX1, exampleCaseX2, exampleCaseA]).map (·.summary)).count t))⟩ :=
  claim_C8_title_mode_dedup_warnings.1 [exampleCaseX1, exampleCaseX2, exampleCaseA] none
    (by decide)
